import Mathlib

/-!
# Verification of the `hde` event-sourced state engine

Shallow embedding of the core of the repository:
* `Processor` (src/processor/index.ts): the pure reducer over ordered events;
* the record model and `EventDB` store adapter (src/db/index.ts);
* the `Facet` orchestrator (src/index.ts): `get`, `append`, `appendTo`,
  `recalculate` and the shared commit path `calculate`.

Store calls (`getState`, `getRecords`, the DynamoDB client `send`) are
external collaborators: embedded operations take the values such calls
would return as explicit arguments, and `putState` returns the
transactional write command it would dispatch (or the thrown error
message) instead of performing I/O.
-/

namespace HDE

/-! ## Processor (src/processor/index.ts) -/

/-- Embeds `Event` (src/processor/index.ts): `{ type: string; event: T | null }`.
The payload type `V` stands for the erased dynamic payload (`T | null` /
`any` in the source). -/
structure Event (V : Type) where
  type : String
  event : V
deriving DecidableEq, Repr

/-- Embeds `StateUpdaterInput` (src/processor/index.ts): the full input record
passed to a rule. -/
structure StateUpdaterInput (S V : Type) where
  state : S
  current : V
  pastInboundEvents : List (Event V)
  newInboundEvents : List (Event V)
  all : List (Event V)
  currentIndex : Nat
  stateIndex : Nat

/-- Embeds `StateUpdater` (src/processor/index.ts). The source exposes a
`publish(name, payload)` callback that pushes one outbound `Event` per
call; here an updater returns the next state together with the list of
events it published, in publish order (the accumulator form of the same
contract). -/
def StateUpdater (S V : Type) : Type :=
  StateUpdaterInput S V → S × List (Event V)

/-- Embeds `ProcessResult` (src/processor/index.ts). -/
structure ProcessResult (S V : Type) where
  state : S
  pastOutboundEvents : List (Event V)
  newOutboundEvents : List (Event V)
deriving DecidableEq, Repr

/-- Embeds `Processor` (src/processor/index.ts). `rules` models the
`Map<RecordTypeName, StateUpdater>` by its lookup function; `initial` is
the `Initializer<T>`. The extra field `falsy` records JavaScript
truthiness for values of the state type `S` (e.g. `0`, `""`, `false` and
`NaN` are falsy): the source line `state || this.initial()` consults the
truthiness of the supplied state, not only whether it is `null`. -/
structure Processor (S V : Type) where
  rules : String → Option (StateUpdater S V)
  initial : Unit → S
  falsy : S → Bool

/-- The accumulator the reduction starts from: the source expression
`state || this.initial()` where `state : T | null`. -/
def Processor.startState (p : Processor S V) (state : Option S) : S :=
  match state with
  | none => p.initial ()
  | some s => if p.falsy s then p.initial () else s

/-- The `allEvents.forEach((curr, idx) => ...)` loop body of
`Processor.process`, threading the mutable `result`. A publish made at
index `idx` is routed by `idx >= pastInboundEvents.length ?
result.newOutboundEvents.push(ed) : result.pastOutboundEvents.push(ed)`. -/
def Processor.processGo (rules : String → Option (StateUpdater S V))
    (past new all : List (Event V)) :
    ProcessResult S V → List (Event V) → Nat → ProcessResult S V
  | acc, [], _ => acc
  | acc, curr :: rest, idx =>
    match rules curr.type with
    | none => Processor.processGo rules past new all acc rest (idx + 1)
    | some updater =>
      let r := updater
        { state := acc.state
          current := curr.event
          pastInboundEvents := past
          newInboundEvents := new
          all := all
          currentIndex := idx
          stateIndex := past.length }
      if past.length ≤ idx then
        Processor.processGo rules past new all
          { state := r.1
            pastOutboundEvents := acc.pastOutboundEvents
            newOutboundEvents := acc.newOutboundEvents ++ r.2 } rest (idx + 1)
      else
        Processor.processGo rules past new all
          { state := r.1
            pastOutboundEvents := acc.pastOutboundEvents ++ r.2
            newOutboundEvents := acc.newOutboundEvents } rest (idx + 1)

/-- Embeds `Processor.process` (src/processor/index.ts). -/
def Processor.process (p : Processor S V) (state : Option S)
    (pastInboundEvents newInboundEvents : List (Event V)) : ProcessResult S V :=
  Processor.processGo p.rules pastInboundEvents newInboundEvents
    (pastInboundEvents ++ newInboundEvents)
    { state := p.startState state
      pastOutboundEvents := []
      newOutboundEvents := [] }
    (pastInboundEvents ++ newInboundEvents) 0

/-! ## Record model and store adapter (src/db/index.ts) -/

/-- Embeds `new Date()` captured once per commit: `getTime()` (epoch millis) and
`toISOString()`. -/
structure Date where
  time : Int
  iso : String
deriving DecidableEq, Repr

/-- Embeds `BaseRecord` (src/db/index.ts). `_itm` holds the JSON-serialized
payload as a string, exactly as in the source. -/
structure BaseRecord where
  _id : String
  _rng : String
  _facet : String
  _typ : String
  _ts : Int
  _date : String
  _itm : String
  _seq : Int
deriving DecidableEq, Repr

/-- Embeds `facetId` (src/db/index.ts). -/
def facetId (facet id : String) : String := facet ++ "/" ++ id

/-- Embeds `newRecord` (src/db/index.ts). The source applies `JSON.stringify`
to the erased payload; `stringify` is that codec for the payload type
`α`. -/
def newRecord {α : Type} (stringify : α → String) (facet id : String)
    (seq : Int) (rng type : String) (item : α) (time : Date) : BaseRecord :=
  { _facet := facet
    _id := facetId facet id
    _seq := seq
    _rng := rng
    _typ := type
    _ts := time.time
    _date := time.iso
    _itm := stringify item }

/-- Embeds `isFacet` (src/db/index.ts). -/
def isFacet (facet : String) (r : BaseRecord) : Bool := r._facet == facet

/-- Embeds `newStateRecord` (src/db/index.ts). -/
def newStateRecord {α : Type} (stringify : α → String) (facet id : String)
    (seq : Int) (item : α) (time : Date) : BaseRecord :=
  newRecord stringify facet id seq "STATE" facet item time

/-- Embeds `isStateRecord` (src/db/index.ts). -/
def isStateRecord (r : BaseRecord) : Bool := r._rng == "STATE"

/-- Embeds `inboundRecordRangeKey` (src/db/index.ts): `INBOUND/<type>/<seq>`. -/
def inboundRecordRangeKey (type : String) (seq : Int) : String :=
  "INBOUND/" ++ type ++ "/" ++ toString seq

/-- Embeds `newInboundRecord` (src/db/index.ts). -/
def newInboundRecord {α : Type} (stringify : α → String) (facet id : String)
    (seq : Int) (type : String) (item : α) (time : Date) : BaseRecord :=
  newRecord stringify facet id seq (inboundRecordRangeKey type seq) type item time

/-- Embeds `String.prototype.startsWith` on the underlying character
list (equivalent to `String.startsWith`, but evaluates by structural
recursion). -/
def strStartsWith (s pre : String) : Bool := pre.data.isPrefixOf s.data

/-- Embeds `isInboundRecord` (src/db/index.ts). -/
def isInboundRecord (r : BaseRecord) : Bool := strStartsWith r._rng "INBOUND"

/-- Embeds `outboundRecordRangeKey` (src/db/index.ts):
`OUTBOUND/<type>/<seq>/<index>`. -/
def outboundRecordRangeKey (type : String) (seq : Int) (index : Nat) : String :=
  "OUTBOUND/" ++ type ++ "/" ++ toString seq ++ "/" ++ toString index

/-- Embeds `newOutboundRecord` (src/db/index.ts). -/
def newOutboundRecord {α : Type} (stringify : α → String) (facet id : String)
    (seq : Int) (index : Nat) (type : String) (item : α) (time : Date) : BaseRecord :=
  newRecord stringify facet id seq (outboundRecordRangeKey type seq index) type item time

/-- Embeds `isOutboundRecord` (src/db/index.ts). -/
def isOutboundRecord (r : BaseRecord) : Bool := strStartsWith r._rng "OUTBOUND"

/-- One `Put` of a `TransactWriteCommand`, as built by `createPutItem` /
`createPutState` (src/db/index.ts). Only the `:_seq` value is ever bound,
so the values map is a list of `String × Int` pairs. -/
structure PutItem where
  tableName : String
  item : BaseRecord
  conditionExpression : String
  expressionAttributeNames : List (String × String)
  expressionAttributeValues : List (String × Int)
deriving DecidableEq, Repr

/-- Embeds `createPutItem` (src/db/index.ts). -/
def createPutItem (tableName : String) (r : BaseRecord) : PutItem :=
  { tableName := tableName
    item := r
    conditionExpression := "attribute_not_exists(#_id)"
    expressionAttributeNames := [("#_id", "_id")]
    expressionAttributeValues := [] }

/-- Embeds `createPutState` (src/db/index.ts). -/
def createPutState (tableName : String) (r : BaseRecord) (previousSeq : Int) : PutItem :=
  { tableName := tableName
    item := r
    conditionExpression := "attribute_not_exists(#_id) OR #_seq = :_seq"
    expressionAttributeNames := [("#_id", "_id"), ("#_seq", "_seq")]
    expressionAttributeValues := [(":_seq", previousSeq)] }

/-- Embeds `EventDB` (src/db/index.ts), minus the DynamoDB client handle (an
external collaborator). -/
structure EventDB where
  table : String
  facet : String

/-- Embeds `EventDB.putState` (src/db/index.ts). Instead of performing I/O it
returns either the thrown error message or the list of `Put` items of
the `TransactWriteCommand` it sends. -/
def EventDB.putState (db : EventDB) (state : BaseRecord) (previousSeq : Int)
    (inbound outbound : List BaseRecord) : Except String (List PutItem) :=
  if ¬ isStateRecord state then
    .error "putState: invalid state record"
  else if ¬ isFacet db.facet state then
    .error ("putState: state record has mismatched facet. Expected: \"" ++
      db.facet ++ "\", got: \"" ++ state._facet ++ "\"")
  else if inbound.any (fun d => ¬ isInboundRecord d) then
    .error "putState: invalid inbound record"
  else if inbound.any (fun d => ¬ isFacet db.facet d) then
    .error "putState: invalid facet for inbound record"
  else if outbound.any (fun e => ¬ isOutboundRecord e) then
    .error "putState: invalid outbound record"
  else if outbound.any (fun e => ¬ isFacet db.facet e) then
    .error "putState: invalid facet for outbound record"
  else if 25 < outbound.length + inbound.length + 1 then
    .error ("putState: cannot exceed maximum DynamoDB transaction count of 25. " ++
      "The transaction attempted to write " ++
      toString (outbound.length + inbound.length + 1) ++ ".")
  else
    .ok (inbound.map (createPutItem db.table) ++
      outbound.map (createPutItem db.table) ++
      [createPutState db.table state previousSeq])

/-! ## Facet orchestrator (src/index.ts) -/

/-- Embeds `GetOutput` (src/index.ts). -/
structure GetOutput (S : Type) where
  record : BaseRecord
  item : S

/-- Embeds `ChangeOutput` (src/index.ts). -/
structure ChangeOutput (S V : Type) where
  seq : Int
  item : S
  pastOutboundEvents : List (Event V)
  newOutboundEvents : List (Event V)
deriving DecidableEq, Repr

/-- Embeds `RecordsOutput` (src/index.ts). -/
structure RecordsOutput where
  state : Option BaseRecord
  inboundEvents : List BaseRecord
  outboundEvents : List BaseRecord
deriving DecidableEq, Repr

/-- Insert a record into a list sorted ascending by `_seq`, after every
element whose `_seq` is less than or equal to that of the inserted record. -/
def insertBySeq (r : BaseRecord) : List BaseRecord → List BaseRecord
  | [] => [r]
  | x :: xs => if r._seq < x._seq then r :: x :: xs else x :: insertBySeq r xs

/-- Embeds `sortRecords` (src/index.ts): `eventRecords.sort(...)` with a
comparator returning `-1 / 0 / 1` on `_seq`. `Array.prototype.sort` is
required to be stable, so the call is a stable ascending sort on `_seq`;
the embedding is the left-to-right stable insertion sort (each element
is placed after earlier elements with an equal `_seq`). -/
def sortRecords (eventRecords : List BaseRecord) : List BaseRecord :=
  eventRecords.foldl (fun acc r => insertBySeq r acc) []

/-- Embeds `Facet` (src/index.ts). `S` is `TState`, `V` the erased payload type
of inbound and outbound events (`TInputEvents` / `TOutputEvents` /
`any`). The four codec fields model `JSON.stringify` / `JSON.parse` at
the call sites of the source, for the erased types. -/
structure Facet (S V : Type) where
  name : String
  db : EventDB
  processor : Processor S V
  stringifyState : S → String
  parseState : String → S
  stringifyEvent : V → String
  parseEvent : String → V

/-- Embeds `Facet.get` (src/index.ts). The record returned by `db.getState(id)`
is passed in as `stored`. -/
def Facet.get (f : Facet S V) (stored : Option BaseRecord) : Option (GetOutput S) :=
  match stored with
  | some state => some { record := state, item := f.parseState state._itm }
  | none => none

/-- The `records.forEach` classification loop of `Facet.records`
(src/index.ts). -/
def Facet.recordsStep (acc : RecordsOutput) (r : BaseRecord) : RecordsOutput :=
  if isInboundRecord r then
    { acc with inboundEvents := acc.inboundEvents ++ [r] }
  else if isOutboundRecord r then
    { acc with outboundEvents := acc.outboundEvents ++ [r] }
  else if isStateRecord r then
    { acc with state := some r }
  else
    acc

/-- Embeds `Facet.records` (src/index.ts). The rows returned by
`db.getRecords(id)` are passed in as `rows`, in the order the store
returned them. -/
def Facet.records (_f : Facet S V) (rows : List BaseRecord) : RecordsOutput :=
  let result := rows.foldl Facet.recordsStep
    { state := none, inboundEvents := [], outboundEvents := [] }
  { result with inboundEvents := sortRecords result.inboundEvents }

/-- Embeds `Facet.calculate` (src/index.ts): the commit path shared by
`append`, `appendTo` and `recalculate`. Returns the transactional write
dispatched by `db.putState` together with the `ChangeOutput`, or the
error `putState` threw. -/
def Facet.calculate (f : Facet S V) (id : String) (state : Option S) (seq : Int)
    (pastInboundEvents : List BaseRecord) (newInboundEvents : List (Event V))
    (now : Date) : Except String (List PutItem × ChangeOutput S V) :=
  let pastEvents := pastInboundEvents.map
    (fun e => Event.mk e._typ (f.parseEvent e._itm))
  let newInboundEventsSequence := newInboundEvents.map
    (fun e => Event.mk e.type e.event)
  let processingResult := f.processor.process state pastEvents newInboundEventsSequence
  let hr := newStateRecord f.stringifyState f.name id
    (seq + newInboundEvents.length) processingResult.state now
  let newInboundRecords := newInboundEvents.mapIdx
    (fun i e => newInboundRecord f.stringifyEvent f.name id
      (seq + 1 + i) e.type e.event now)
  let newOutboundRecords := processingResult.newOutboundEvents.mapIdx
    (fun i e => newOutboundRecord f.stringifyEvent f.name id
      (seq + newInboundEvents.length) i e.type e.event now)
  match f.db.putState hr seq newInboundRecords newOutboundRecords with
  | .error e => .error e
  | .ok tx => .ok (tx,
    { seq := hr._seq
      item := processingResult.state
      pastOutboundEvents := processingResult.pastOutboundEvents
      newOutboundEvents := processingResult.newOutboundEvents })

/-- Embeds `Facet.appendTo` (src/index.ts). -/
def Facet.appendTo (f : Facet S V) (id : String) (state : Option S) (seq : Int)
    (newInboundEvents : List (Event V)) (now : Date) :
    Except String (List PutItem × ChangeOutput S V) :=
  f.calculate id state seq [] newInboundEvents now

/-- Embeds `Facet.append` (src/index.ts). The record returned by
`db.getState(id)` is passed in as `stored`. -/
def Facet.append (f : Facet S V) (id : String) (stored : Option BaseRecord)
    (newInboundEvents : List (Event V)) (now : Date) :
    Except String (List PutItem × ChangeOutput S V) :=
  let stateRecord := f.get stored
  let state := stateRecord.map (fun sr => sr.item)
  let seq := match stateRecord with
    | some sr => sr.record._seq
    | none => 0
  f.appendTo id state seq newInboundEvents now

/-- Embeds `Facet.recalculate` (src/index.ts). The rows returned by
`db.getRecords(id)` are passed in as `rows`. -/
def Facet.recalculate (f : Facet S V) (id : String) (rows : List BaseRecord)
    (newInboundEvents : List (Event V)) (now : Date) :
    Except String (List PutItem × ChangeOutput S V) :=
  let records := f.records rows
  let seq := match records.state with
    | some s => s._seq
    | none => 0
  f.calculate id none seq records.inboundEvents newInboundEvents now

/-! ## Analysis of the Processor loop -/

/-- The state threaded through the `forEach` loop of `Processor.process`,
taken on its own. -/
def runState (rules : String → Option (StateUpdater S V))
    (past new all : List (Event V)) : S → List (Event V) → Nat → S
  | s, [], _ => s
  | s, curr :: rest, idx =>
    match rules curr.type with
    | none => runState rules past new all s rest (idx + 1)
    | some updater =>
      runState rules past new all
        (updater
          { state := s
            current := curr.event
            pastInboundEvents := past
            newInboundEvents := new
            all := all
            currentIndex := idx
            stateIndex := past.length }).1 rest (idx + 1)

/-- Specification-side publish trace, following the specification text for
the algorithm: for each event at index `i` that has a rule, the entry
`(i, pubs)` lists, in publish order, the outbound events published while
that rule ran. -/
def publishTrace (rules : String → Option (StateUpdater S V))
    (past new all : List (Event V)) :
    S → List (Event V) → Nat → List (Nat × List (Event V))
  | _, [], _ => []
  | s, curr :: rest, idx =>
    match rules curr.type with
    | none => publishTrace rules past new all s rest (idx + 1)
    | some updater =>
      let r := updater
        { state := s
          current := curr.event
          pastInboundEvents := past
          newInboundEvents := new
          all := all
          currentIndex := idx
          stateIndex := past.length }
      (idx, r.2) :: publishTrace rules past new all r.1 rest (idx + 1)

/-- The state accumulator `Processor.process` begins with, bypassing the
`state || this.initial()` defaulting: the loop run from an explicit
starting state. -/
def Processor.processFrom (p : Processor S V) (s : S)
    (pastInboundEvents newInboundEvents : List (Event V)) : ProcessResult S V :=
  Processor.processGo p.rules pastInboundEvents newInboundEvents
    (pastInboundEvents ++ newInboundEvents)
    { state := s, pastOutboundEvents := [], newOutboundEvents := [] }
    (pastInboundEvents ++ newInboundEvents) 0

/-- A rule table is state-context-free when the next state returned by
each rule depends only on the accumulator and the current payload (not
on `all`, `currentIndex`, `stateIndex` or the past/new event lists). -/
def StateCtxFree (rules : String → Option (StateUpdater S V)) : Prop :=
  ∀ t u, rules t = some u →
    ∀ i j : StateUpdaterInput S V,
      i.state = j.state → i.current = j.current → (u i).1 = (u j).1

/-- A rule table is context-free when the full output of each rule (next
state and published events) depends only on the accumulator and the
current payload. -/
def CtxFree (rules : String → Option (StateUpdater S V)) : Prop :=
  ∀ t u, rules t = some u →
    ∀ i j : StateUpdaterInput S V,
      i.state = j.state → i.current = j.current → u i = u j

/-- Applying one event to the state through the rule table, with the
contextual fields of the updater input held at canonical values. -/
def applyRule (rules : String → Option (StateUpdater S V)) (s : S) (c : Event V) : S :=
  match rules c.type with
  | none => s
  | some updater =>
    (updater
      { state := s
        current := c.event
        pastInboundEvents := []
        newInboundEvents := []
        all := []
        currentIndex := 0
        stateIndex := 0 }).1

/-- The loop with no past inbound events and a context-free rule table,
as a pure recursion on the event list alone: final state together with
the concatenated published events. -/
def runPure (rules : String → Option (StateUpdater S V)) :
    S → List (Event V) → S × List (Event V)
  | s, [] => (s, [])
  | s, c :: rest =>
    match rules c.type with
    | none => runPure rules s rest
    | some updater =>
      let r := updater
        { state := s
          current := c.event
          pastInboundEvents := []
          newInboundEvents := []
          all := []
          currentIndex := 0
          stateIndex := 0 }
      let t := runPure rules r.1 rest
      (t.1, r.2 ++ t.2)

/-! ## Concrete instances used to evaluate the embedding -/

/-- A processor over `number` state with an empty rule table and a
non-zero default. JavaScript truthiness of numbers: `0` is falsy. -/
def numProc : Processor Int Int :=
  { rules := fun _ => none
    initial := fun _ => 7
    falsy := fun n => n == 0 }

/-- A processor whose single rule stores the current index into the
state: its output depends on the position of the event in `all`, not
only on the accumulator and the payload. -/
def idxProc : Processor Int Int :=
  { rules := fun t => if t == "K" then
      some (fun input => ((input.currentIndex : Int), [])) else none
    initial := fun _ => 0
    falsy := fun _ => false }

/-- A processor whose rule (for every type) adds the current payload to
the state. -/
def addProc : Processor Int Int :=
  { rules := fun _ => some (fun input => (input.state + input.current, []))
    initial := fun _ => 0
    falsy := fun _ => false }

/-- A processor knowing one event type: add the payload to the state and
publish one outbound event carrying the payload. -/
def mixProc : Processor Int Int :=
  { rules := fun t => if t == "K" then
      some (fun input => (input.state + input.current,
        [{ type := "out", event := input.current }]))
    else none
    initial := fun _ => 0
    falsy := fun _ => false }

def wDB : EventDB := { table := "T", facet := "F" }

def wProc : Processor Int Int :=
  { rules := fun _ => none, initial := fun _ => 0, falsy := fun _ => false }

/-- A concrete facet over `number` state and `number` event payloads. -/
def wFacet : Facet Int Int :=
  { name := "F"
    db := wDB
    processor := wProc
    stringifyState := fun n => toString n
    parseState := fun _ => 0
    stringifyEvent := fun n => toString n
    parseEvent := fun _ => 0 }

def wNow : Date := { time := 0, iso := "1970-01-01T00:00:00.000Z" }

def wEv : Event Int := { type := "E", event := 1 }

def wStateRec : BaseRecord :=
  newStateRecord (fun n : Int => toString n) "F" "id" 1 (0 : Int) wNow

def wInbRec : BaseRecord :=
  newInboundRecord (fun n : Int => toString n) "F" "id" 1 "E" (1 : Int) wNow

def wTx : List PutItem := [createPutItem "T" wInbRec, createPutState "T" wStateRec 0]

def wOut : ChangeOutput Int Int :=
  { seq := 1, item := 0, pastOutboundEvents := [], newOutboundEvents := [] }

def wRec1 : BaseRecord :=
  newInboundRecord (fun n : Int => toString n) "F" "id" 2 "E" (2 : Int) wNow

def wRec2 : BaseRecord :=
  newInboundRecord (fun n : Int => toString n) "F" "id" 1 "E" (1 : Int) wNow

/-- A stray row whose sort key carries none of the three prefixes. -/
def wStray : BaseRecord :=
  { _id := "F/id", _rng := "STRAY", _facet := "F", _typ := "X"
    _ts := 0, _date := "", _itm := "", _seq := 9 }

def wRows : List BaseRecord := [wRec1, wStray, wRec2]

/-- Decomposition of the `forEach` loop: the final state is `runState`,
and the two outbound lists are the flattened publish trace split by the
routing test `idx < pastInboundEvents.length`. -/
theorem processGo_eq (rules : String → Option (StateUpdater S V))
    (past new all : List (Event V)) (l : List (Event V)) :
    ∀ (acc : ProcessResult S V) (idx : Nat),
    Processor.processGo rules past new all acc l idx =
      { state := runState rules past new all acc.state l idx
        pastOutboundEvents := acc.pastOutboundEvents ++
          (((publishTrace rules past new all acc.state l idx).filter
            (fun x => decide (x.1 < past.length))).map Prod.snd).flatten
        newOutboundEvents := acc.newOutboundEvents ++
          (((publishTrace rules past new all acc.state l idx).filter
            (fun x => decide (past.length ≤ x.1))).map Prod.snd).flatten } := by
  induction l with
  | nil =>
    intro acc idx
    simp [Processor.processGo, runState, publishTrace]
  | cons curr rest ih =>
    intro acc idx
    cases hrule : rules curr.type with
    | none =>
      simp only [Processor.processGo, runState, publishTrace, hrule]
      exact ih acc (idx + 1)
    | some updater =>
      simp only [Processor.processGo, runState, publishTrace, hrule]
      by_cases hle : past.length ≤ idx
      · rw [if_pos hle, ih]
        have hnotlt : ¬ idx < past.length := by omega
        simp [hnotlt, hle, List.append_assoc]
      · rw [if_neg hle, ih]
        have hlt : idx < past.length := by omega
        simp [hlt, hle, List.append_assoc]

theorem runState_eq_foldl {rules : String → Option (StateUpdater S V)}
    (h : StateCtxFree rules) (past new all : List (Event V)) (l : List (Event V)) :
    ∀ (s : S) (idx : Nat),
    runState rules past new all s l idx = l.foldl (applyRule rules) s := by
  induction l with
  | nil => intro s idx; simp [runState]
  | cons curr rest ih =>
    intro s idx
    cases hrule : rules curr.type with
    | none =>
      simp only [runState, hrule, List.foldl_cons]
      rw [ih]
      simp [applyRule, hrule]
    | some updater =>
      simp only [runState, hrule, List.foldl_cons]
      rw [ih]
      congr 1
      simp only [applyRule, hrule]
      exact h curr.type updater hrule _ _ rfl rfl

/-- The loop from an explicit starting state computed as a pure left
fold, available when the rule table is state-context-free. -/
theorem process_state_eq {p : Processor S V} (h : StateCtxFree p.rules)
    (state : Option S) (past new : List (Event V)) :
    (p.process state past new).state =
      (past ++ new).foldl (applyRule p.rules) (p.startState state) := by
  rw [Processor.process, processGo_eq]
  exact runState_eq_foldl h _ _ _ _ _ _

/-- With no past inbound events every publish is routed to
`newOutboundEvents`, so `pastOutboundEvents` stays empty. -/
theorem process_nilPast_pastOutboundEvents (p : Processor S V)
    (state : Option S) (new : List (Event V)) :
    (p.process state [] new).pastOutboundEvents = [] := by
  rw [Processor.process, processGo_eq]
  simp

theorem processGo_nilPast_eq_runPure {rules : String → Option (StateUpdater S V)}
    (h : CtxFree rules) (new all : List (Event V)) (l : List (Event V)) :
    ∀ (s : S) (po no : List (Event V)) (idx : Nat),
    Processor.processGo rules [] new all
      { state := s, pastOutboundEvents := po, newOutboundEvents := no } l idx =
      { state := (runPure rules s l).1
        pastOutboundEvents := po
        newOutboundEvents := no ++ (runPure rules s l).2 } := by
  induction l with
  | nil => intro s po no idx; simp [Processor.processGo, runPure]
  | cons curr rest ih =>
    intro s po no idx
    cases hrule : rules curr.type with
    | none =>
      simp only [Processor.processGo, runPure, hrule]
      exact ih s po no (idx + 1)
    | some updater =>
      simp only [Processor.processGo, runPure, hrule, List.length_nil]
      rw [if_pos (Nat.zero_le idx)]
      have hupd := h curr.type updater hrule
        { state := s
          current := curr.event
          pastInboundEvents := []
          newInboundEvents := new
          all := all
          currentIndex := idx
          stateIndex := 0 }
        { state := s
          current := curr.event
          pastInboundEvents := []
          newInboundEvents := []
          all := []
          currentIndex := 0
          stateIndex := 0 } rfl rfl
      rw [hupd, ih]
      simp [List.append_assoc]

/-- Removing the events whose type has no rule does not change a pure
run. -/
theorem runPure_filter (rules : String → Option (StateUpdater S V))
    (l : List (Event V)) :
    ∀ s : S,
    runPure rules s (l.filter (fun e => (rules e.type).isSome)) = runPure rules s l := by
  induction l with
  | nil => intro s; simp
  | cons curr rest ih =>
    intro s
    cases hrule : rules curr.type with
    | none =>
      rw [List.filter_cons]
      simp only [hrule, Option.isSome_none, Bool.false_eq_true, if_false]
      rw [ih]
      simp [runPure, hrule]
    | some updater =>
      rw [List.filter_cons]
      simp only [hrule, Option.isSome_some, if_true]
      simp only [runPure, hrule]
      rw [ih]

/-! ## Claims about the Processor -/

/-- C2: in `Processor.process`, the publishes made while handling the
event at index `i` of `all = pastInboundEvents ++ newInboundEvents` go,
in publish order and one outbound `Event` per publish, to
`pastOutboundEvents` exactly when `i < stateIndex`
(`stateIndex = pastInboundEvents.length`) and to `newOutboundEvents`
otherwise: each returned list is exactly the concatenation, in trace
order, of the publish lists routed to it, so no published event is
dropped or duplicated across the two lists. -/
theorem claim_C2 (p : Processor S V) (state : Option S)
    (past new : List (Event V)) :
    (p.process state past new).pastOutboundEvents =
      (((publishTrace p.rules past new (past ++ new) (p.startState state)
          (past ++ new) 0).filter
        (fun x => decide (x.1 < past.length))).map Prod.snd).flatten
    ∧ (p.process state past new).newOutboundEvents =
      (((publishTrace p.rules past new (past ++ new) (p.startState state)
          (past ++ new) 0).filter
        (fun x => decide (past.length ≤ x.1))).map Prod.snd).flatten := by
  rw [Processor.process, processGo_eq]
  exact ⟨rfl, rfl⟩

/-- C4 as stated is false: `process` starts from `initializer()` not
only when the supplied state is `null`, but for every JavaScript-falsy
state (`state || this.initial()`). For the number-state processor
`numProc` (initializer `7`, no rules), the supplied non-null state `0`
is falsy, and the reduction starts (and, with no rules, ends) at the
initializer value `7`, not at `0`. -/
theorem claim_C4_counterexample :
    (numProc.process (some 0) [] []).state = numProc.initial ()
    ∧ (numProc.process (some 0) [] []).state ≠ 0 := by
  constructor
  · rfl
  · decide

/-- C4, amended: `Processor.process` starts its accumulator from
`initializer()` exactly when the supplied state is `null` or a
JavaScript-falsy value; for every truthy supplied state, that state
itself is the starting accumulator of the reduction. -/
theorem claim_C4 (p : Processor S V) (s : S) (past new : List (Event V)) :
    (p.falsy s = false →
      p.process (some s) past new = p.processFrom s past new)
    ∧ (p.falsy s = true →
      p.process (some s) past new = p.process none past new)
    ∧ p.process none past new = p.processFrom (p.initial ()) past new := by
  refine ⟨fun h => ?_, fun h => ?_, rfl⟩
  · rw [Processor.process, Processor.processFrom, Processor.startState]
    simp [h]
  · rw [Processor.process, Processor.process, Processor.startState,
      Processor.startState]
    simp [h]

/-- C4 witness: for `numProc`, the truthy state `5` is the starting
accumulator, while the falsy state `0` behaves like `null`. -/
theorem claim_C4_witness :
    numProc.process (some 5) [] [] = numProc.processFrom 5 [] []
    ∧ numProc.process (some 0) [] [] = numProc.process none [] [] :=
  ⟨(claim_C4 numProc 5 [] []).1 (by decide),
   (claim_C4 numProc 0 [] []).2.1 (by decide)⟩

/-- C3 as stated is false: a rule may read the positional context
(`currentIndex`, `all`, `stateIndex`, ...), and then reducing over
`L ++ N` differs from reducing over `L` and then over `N`. With
`idxProc` (the rule stores `currentIndex` into the state) and
`L = N = [Event "K" 0]`, the one-shot reduction ends in state `1` while
the two-stage reduction ends in state `0`. -/
theorem claim_C3_counterexample :
    ¬ ((idxProc.process none [] ([⟨"K", 0⟩] ++ [⟨"K", 0⟩])).state
      = (idxProc.process
          (some ((idxProc.process none [] [⟨"K", 0⟩]).state))
          [] [⟨"K", 0⟩]).state) := by
  decide

/-- C3, amended: replay equivalence holds for rule tables whose next
state depends only on the accumulator and the current payload
(`StateCtxFree`), provided the intermediate state is not
JavaScript-falsy (else `state || this.initial()` restarts the second
stage from the initializer). -/
theorem claim_C3 (p : Processor S V) (L N : List (Event V))
    (hctx : StateCtxFree p.rules)
    (hfal : p.falsy ((p.process none [] L).state) = false) :
    (p.process none [] (L ++ N)).state
      = (p.process (some ((p.process none [] L).state)) [] N).state := by
  have hL : (p.process none [] L).state
      = L.foldl (applyRule p.rules) (p.startState none) := by
    simpa using process_state_eq hctx none [] L
  have hLN : (p.process none [] (L ++ N)).state
      = (L ++ N).foldl (applyRule p.rules) (p.startState none) := by
    simpa using process_state_eq hctx none [] (L ++ N)
  have hN : (p.process (some ((p.process none [] L).state)) [] N).state
      = N.foldl (applyRule p.rules)
          (p.startState (some ((p.process none [] L).state))) := by
    simpa using process_state_eq hctx (some ((p.process none [] L).state)) [] N
  rw [hLN, hN, List.foldl_append]
  have hss : p.startState (some ((p.process none [] L).state))
      = (p.process none [] L).state := by
    rw [Processor.startState]
    simp [hfal]
  rw [hss, hL]

/-- C3 witness: for the additive, context-free processor `addProc`,
replaying `[Event "A" 2]` and then `[Event "A" 3]` agrees with reducing
the concatenated log. -/
theorem claim_C3_witness :
    (addProc.process none [] ([⟨"A", 2⟩] ++ [⟨"A", 3⟩])).state
      = (addProc.process
          (some ((addProc.process none [] [⟨"A", 2⟩]).state))
          [] [⟨"A", 3⟩]).state :=
  claim_C3 addProc [⟨"A", 2⟩] [⟨"A", 3⟩]
    (by
      intro t u hu i j hs hc
      cases hu
      simp [hs, hc])
    (by decide)

/-- C9 as stated is false: an event of unknown type is skipped where it
occurs, but removing it shifts `currentIndex` (and the event lists seen
by the rules), so the full results can differ. With `idxProc` and
`L = [Event "U" 0, Event "K" 0]`, processing `L` ends in state `1`
while processing `L` without the unknown event ends in state `0`. -/
theorem claim_C9_counterexample :
    ¬ (idxProc.process none [] [⟨"U", 0⟩, ⟨"K", 0⟩]
      = idxProc.process none []
          ([(⟨"U", 0⟩ : Event Int), ⟨"K", 0⟩].filter
            (fun e => (idxProc.rules e.type).isSome))) := by
  decide

/-- C9, amended: an event whose type has no rule is skipped exactly (no
state change, no publish at that step); and for rule tables whose full
output depends only on the accumulator and the current payload
(`CtxFree`), processing an inbound log equals processing the log with
all unknown-type events removed. -/
theorem claim_C9 :
    (∀ (rules : String → Option (StateUpdater S V))
        (past new all : List (Event V)) (acc : ProcessResult S V)
        (c : Event V) (rest : List (Event V)) (idx : Nat),
      rules c.type = none →
      Processor.processGo rules past new all acc (c :: rest) idx
        = Processor.processGo rules past new all acc rest (idx + 1))
    ∧ (∀ (p : Processor S V), CtxFree p.rules →
        ∀ (state : Option S) (L : List (Event V)),
      p.process state [] L
        = p.process state []
            (L.filter (fun e => (p.rules e.type).isSome))) := by
  constructor
  · intro rules past new all acc c rest idx hnone
    simp [Processor.processGo, hnone]
  · intro p hctx state L
    rw [Processor.process, Processor.process]
    simp only [List.nil_append]
    rw [processGo_nilPast_eq_runPure hctx, processGo_nilPast_eq_runPure hctx,
      runPure_filter]

/-- C9 witness: for the context-free processor `mixProc` (one known
type `"K"`), removing the unknown-typed event from the log does not
change the result, and the step of the unknown event is a skip. -/
theorem claim_C9_witness :
    mixProc.process none [] [⟨"U", 1⟩, ⟨"K", 2⟩]
      = mixProc.process none []
          ([(⟨"U", 1⟩ : Event Int), ⟨"K", 2⟩].filter
            (fun e => (mixProc.rules e.type).isSome)) :=
  (claim_C9).2 mixProc
    (by
      intro t u hu i j hs hc
      rw [mixProc] at hu
      simp only at hu
      split at hu
      · cases hu
        simp [hs, hc]
      · cases hu)
    none [⟨"U", 1⟩, ⟨"K", 2⟩]

/-! ## Analysis of the store adapter and the commit path -/

/-- Embeds `putState` dispatches successfully exactly when every validation
passes. -/
theorem putState_isOk_iff (db : EventDB) (state : BaseRecord)
    (previousSeq : Int) (inbound outbound : List BaseRecord) :
    (db.putState state previousSeq inbound outbound).isOk = true ↔
      (isStateRecord state = true ∧ isFacet db.facet state = true
        ∧ (∀ r ∈ inbound, isInboundRecord r = true ∧ isFacet db.facet r = true)
        ∧ (∀ r ∈ outbound, isOutboundRecord r = true ∧ isFacet db.facet r = true)
        ∧ outbound.length + inbound.length + 1 ≤ 25) := by
  rw [EventDB.putState]
  split_ifs with h1 h2 h3 h4 h5 h6 h7
  · refine iff_of_false (by simp [Except.isOk, Except.toBool]) fun hc => ?_
    simp only [List.any_eq_true, decide_eq_true_eq] at h3
    obtain ⟨r, hr, hrf⟩ := h3
    exact hrf (hc.2.2.1 r hr).1
  · refine iff_of_false (by simp [Except.isOk, Except.toBool]) fun hc => ?_
    simp only [List.any_eq_true, decide_eq_true_eq] at h4
    obtain ⟨r, hr, hrf⟩ := h4
    exact hrf (hc.2.2.1 r hr).2
  · refine iff_of_false (by simp [Except.isOk, Except.toBool]) fun hc => ?_
    simp only [List.any_eq_true, decide_eq_true_eq] at h5
    obtain ⟨r, hr, hrf⟩ := h5
    exact hrf (hc.2.2.2.1 r hr).1
  · refine iff_of_false (by simp [Except.isOk, Except.toBool]) fun hc => ?_
    simp only [List.any_eq_true, decide_eq_true_eq] at h6
    obtain ⟨r, hr, hrf⟩ := h6
    exact hrf (hc.2.2.2.1 r hr).2
  · refine iff_of_false (by simp [Except.isOk, Except.toBool]) fun hc => ?_
    have := hc.2.2.2.2
    omega
  · refine iff_of_true (by simp [Except.isOk, Except.toBool]) ?_
    simp only [List.any_eq_true, decide_eq_true_eq] at h3 h4 h5 h6
    push_neg at h3 h4 h5 h6
    exact ⟨h1, h2, fun r hr => ⟨h3 r hr, h4 r hr⟩,
      fun r hr => ⟨h5 r hr, h6 r hr⟩, by omega⟩
  · exact iff_of_false (by simp [Except.isOk, Except.toBool]) fun hc => h2 hc.2.1
  · exact iff_of_false (by simp [Except.isOk, Except.toBool]) fun hc => h1 hc.1

/-- A successful `putState` dispatches the transaction built from the
inbound puts, then the outbound puts, then the single conditional state
put. -/
theorem putState_ok_val {db : EventDB} {state : BaseRecord}
    {previousSeq : Int} {inbound outbound : List BaseRecord}
    {tx : List PutItem}
    (h : db.putState state previousSeq inbound outbound = .ok tx) :
    tx = inbound.map (createPutItem db.table)
      ++ outbound.map (createPutItem db.table)
      ++ [createPutState db.table state previousSeq] := by
  rw [EventDB.putState] at h
  split_ifs at h
  exact (Except.ok.inj h).symm

/-- Embeds `createPutItem` wraps a record without changing it. -/
theorem map_item_createPutItem (t : String) (l : List BaseRecord) :
    (l.map (createPutItem t)).map PutItem.item = l := by
  induction l with
  | nil => rfl
  | cons x xs ih => simp [createPutItem, ih]

/-- Destructuring a successful `calculate`: the processor result, the
shape of the returned `ChangeOutput`, and the `putState` call that
produced the transaction. -/
theorem calculate_ok_spec {S V : Type} (f : Facet S V) (id : String)
    (st : Option S) (seq : Int) (past : List BaseRecord)
    (new : List (Event V)) (now : Date)
    (tx : List PutItem) (out : ChangeOutput S V)
    (h : f.calculate id st seq past new now = .ok (tx, out)) :
    ∃ pr : ProcessResult S V,
      pr = f.processor.process st
        (past.map fun e => Event.mk e._typ (f.parseEvent e._itm))
        (new.map fun e => Event.mk e.type e.event)
      ∧ out = { seq := seq + new.length
                item := pr.state
                pastOutboundEvents := pr.pastOutboundEvents
                newOutboundEvents := pr.newOutboundEvents }
      ∧ f.db.putState
          (newStateRecord f.stringifyState f.name id (seq + new.length) pr.state now)
          seq
          (new.mapIdx fun i e =>
            newInboundRecord f.stringifyEvent f.name id (seq + 1 + i) e.type e.event now)
          (pr.newOutboundEvents.mapIdx fun i e =>
            newOutboundRecord f.stringifyEvent f.name id (seq + new.length) i
              e.type e.event now)
          = .ok tx := by
  refine ⟨f.processor.process st
    (past.map fun e => Event.mk e._typ (f.parseEvent e._itm))
    (new.map fun e => Event.mk e.type e.event), rfl, ?_⟩
  simp only [Facet.calculate] at h
  split at h
  · exact absurd h (by simp)
  · rename_i tx' heq
    rw [Except.ok.injEq, Prod.mk.injEq] at h
    obtain ⟨htx, hout⟩ := h
    subst htx
    constructor
    · rw [← hout]
      rfl
    · exact heq

/-- Sequencing facts about every successful commit through
`Facet.calculate`: the returned sequence, the sequences of the new
inbound records (positions `0 .. n-1` of the transaction), and the final
state put. -/
theorem calculate_commit_facts {S V : Type} (f : Facet S V) (id : String)
    (st : Option S) (seq : Int) (past : List BaseRecord)
    (new : List (Event V)) (now : Date)
    (tx : List PutItem) (out : ChangeOutput S V)
    (h : f.calculate id st seq past new now = .ok (tx, out)) :
    out.seq = seq + new.length
    ∧ (∀ i, i < new.length →
        ∃ r, (tx.map PutItem.item)[i]? = some r ∧ isInboundRecord r = true
          ∧ r._seq = seq + 1 + i)
    ∧ (∃ r, (tx.map PutItem.item).getLast? = some r ∧ isStateRecord r = true
          ∧ r._seq = seq + new.length) := by
  obtain ⟨pr, hpr, hout, hput⟩ := calculate_ok_spec f id st seq past new now tx out h
  have hcond := (putState_isOk_iff f.db _ seq _ _).mp (by rw [hput]; rfl)
  have htx := putState_ok_val hput
  have hmap : tx.map PutItem.item =
      (new.mapIdx fun i e =>
        newInboundRecord f.stringifyEvent f.name id (seq + 1 + i) e.type e.event now)
      ++ (pr.newOutboundEvents.mapIdx fun i e =>
        newOutboundRecord f.stringifyEvent f.name id (seq + new.length) i
          e.type e.event now)
      ++ [newStateRecord f.stringifyState f.name id (seq + new.length) pr.state now] := by
    rw [htx]
    simp only [List.map_append, map_item_createPutItem, List.map_cons,
      List.map_nil, createPutState]
  refine ⟨by rw [hout], fun i hi => ?_, ?_⟩
  · have hlen : i < (new.mapIdx fun i e =>
        newInboundRecord f.stringifyEvent f.name id (seq + 1 + i) e.type e.event now).length := by
      simpa using hi
    rw [hmap, List.append_assoc, List.getElem?_append_left hlen]
    refine ⟨newInboundRecord f.stringifyEvent f.name id (seq + 1 + i)
      (new.get ⟨i, hi⟩).type (new.get ⟨i, hi⟩).event now, ?_, ?_, ?_⟩
    · simp [List.getElem?_mapIdx, List.getElem?_eq_getElem hi]
    · have hmem : (newInboundRecord f.stringifyEvent f.name id (seq + 1 + i)
          (new.get ⟨i, hi⟩).type (new.get ⟨i, hi⟩).event now) ∈
          (new.mapIdx fun i e =>
            newInboundRecord f.stringifyEvent f.name id (seq + 1 + i) e.type e.event now) := by
        refine List.getElem?_mem (n := i) ?_
        simp [List.getElem?_mapIdx, List.getElem?_eq_getElem hi]
      exact (hcond.2.2.1 _ hmem).1
    · simp [newInboundRecord, newRecord]
  · refine ⟨newStateRecord f.stringifyState f.name id (seq + new.length) pr.state now,
      ?_, ?_, ?_⟩
    · rw [hmap, List.getLast?_concat]
    · simp [newStateRecord, newRecord, isStateRecord]
    · simp [newStateRecord, newRecord]

/-! ## Claims about the store adapter and the orchestrator -/

/-- C7: a successful `putState` dispatches exactly one transactional
write containing the given inbound records, then the given outbound
records, then the single state record; every inbound/outbound put
carries the condition `attribute_not_exists(#_id)` (with `#_id` bound to
the attribute `_id`), and the state put carries
`attribute_not_exists(#_id) OR #_seq = :_seq` with `:_seq` bound to the
`previousSeq` argument. -/
theorem claim_C7 (db : EventDB) (state : BaseRecord) (previousSeq : Int)
    (inbound outbound : List BaseRecord) (tx : List PutItem)
    (h : db.putState state previousSeq inbound outbound = .ok tx) :
    tx.map PutItem.item = inbound ++ outbound ++ [state]
    ∧ (∀ i, i < inbound.length + outbound.length →
        ∃ pi, tx[i]? = some pi
          ∧ pi.conditionExpression = "attribute_not_exists(#_id)"
          ∧ pi.expressionAttributeNames = [("#_id", "_id")]
          ∧ pi.expressionAttributeValues = [])
    ∧ tx.getLast? = some (createPutState db.table state previousSeq)
    ∧ (createPutState db.table state previousSeq).conditionExpression
        = "attribute_not_exists(#_id) OR #_seq = :_seq"
    ∧ (createPutState db.table state previousSeq).expressionAttributeNames
        = [("#_id", "_id"), ("#_seq", "_seq")]
    ∧ (createPutState db.table state previousSeq).expressionAttributeValues
        = [(":_seq", previousSeq)]
    ∧ tx.length = inbound.length + outbound.length + 1 := by
  have htx := putState_ok_val h
  refine ⟨?_, fun i hi => ?_, ?_, rfl, rfl, rfl, ?_⟩
  · rw [htx]
    simp only [List.map_append, map_item_createPutItem, List.map_cons,
      List.map_nil, createPutState]
  · have hi2 : i < (inbound.map (createPutItem db.table)
        ++ outbound.map (createPutItem db.table)).length := by
      simpa using hi
    rw [htx, List.getElem?_append_left hi2]
    refine ⟨(inbound.map (createPutItem db.table)
        ++ outbound.map (createPutItem db.table)).get ⟨i, hi2⟩,
      by simp, ?_⟩
    have hpm : (inbound.map (createPutItem db.table)
        ++ outbound.map (createPutItem db.table)).get ⟨i, hi2⟩
        ∈ inbound.map (createPutItem db.table)
          ++ outbound.map (createPutItem db.table) := List.get_mem _ _ _
    rcases List.mem_append.mp hpm with hm | hm <;>
      obtain ⟨r, -, hr⟩ := List.mem_map.mp hm <;>
      rw [← hr] <;>
      exact ⟨rfl, rfl, rfl⟩
  · rw [htx, List.getLast?_concat]
  · rw [htx]
    simp
    omega

/-- C7 witness: a concrete transaction of one inbound record and the
state record. -/
theorem claim_C7_witness :
    wTx.map PutItem.item = [wInbRec] ++ [] ++ [wStateRec]
    ∧ wTx.getLast? = some (createPutState "T" wStateRec 0)
    ∧ (createPutState "T" wStateRec 0).expressionAttributeValues
        = [(":_seq", 0)] := by
  have h := claim_C7 wDB wStateRec 0 [wInbRec] [] wTx rfl
  exact ⟨h.1, h.2.2.1, h.2.2.2.2.2.1⟩

/-- C8: `putState` throws (synchronously, before dispatching any write)
exactly when the state record is not a STATE record of the facet of
the adapter, or some inbound record is not an INBOUND record of that facet, or
some outbound record is not an OUTBOUND record of that facet, or
`1 + |inbound| + |outbound|` exceeds 25; otherwise it dispatches the
transactional write. -/
theorem claim_C8 (db : EventDB) (state : BaseRecord) (previousSeq : Int)
    (inbound outbound : List BaseRecord) :
    ((db.putState state previousSeq inbound outbound).isOk = true ↔
      (isStateRecord state = true ∧ isFacet db.facet state = true
        ∧ (∀ r ∈ inbound, isInboundRecord r = true ∧ isFacet db.facet r = true)
        ∧ (∀ r ∈ outbound, isOutboundRecord r = true ∧ isFacet db.facet r = true)
        ∧ 1 + inbound.length + outbound.length ≤ 25))
    ∧ (∀ tx, db.putState state previousSeq inbound outbound = .ok tx →
        tx = inbound.map (createPutItem db.table)
          ++ outbound.map (createPutItem db.table)
          ++ [createPutState db.table state previousSeq]) := by
  constructor
  · rw [putState_isOk_iff]
    constructor
    · rintro ⟨a, b, c, d, e⟩
      exact ⟨a, b, c, d, by omega⟩
    · rintro ⟨a, b, c, d, e⟩
      exact ⟨a, b, c, d, by omega⟩
  · intro tx h
    exact putState_ok_val h

/-- C8 witness: a concrete valid state-only write is dispatched as the
single conditional state put. -/
theorem claim_C8_witness :
    [createPutState "T" wStateRec 0]
      = ([] : List BaseRecord).map (createPutItem "T")
        ++ ([] : List BaseRecord).map (createPutItem "T")
        ++ [createPutState "T" wStateRec 0] :=
  (claim_C8 wDB wStateRec 0 [] []).2 [createPutState "T" wStateRec 0] rfl

/-- C10: with an empty `pastInboundEvents` list every publish is routed
to `newOutboundEvents`, so `Processor.process` returns an empty
`pastOutboundEvents`; consequently `appendTo` and `append`, which pass
no past inbound records to the processor, always return a `ChangeOutput`
whose `pastOutboundEvents` is empty. -/
theorem claim_C10 {S V : Type} :
    (∀ (p : Processor S V) (state : Option S) (new : List (Event V)),
      (p.process state [] new).pastOutboundEvents = [])
    ∧ (∀ (f : Facet S V) (id : String) (st : Option S) (seq : Int)
        (new : List (Event V)) (now : Date) (tx : List PutItem)
        (out : ChangeOutput S V),
      f.appendTo id st seq new now = .ok (tx, out) →
        out.pastOutboundEvents = [])
    ∧ (∀ (f : Facet S V) (id : String) (stored : Option BaseRecord)
        (new : List (Event V)) (now : Date) (tx : List PutItem)
        (out : ChangeOutput S V),
      f.append id stored new now = .ok (tx, out) →
        out.pastOutboundEvents = []) := by
  have key : ∀ (f : Facet S V) (id : String) (st : Option S) (seq : Int)
      (new : List (Event V)) (now : Date) (tx : List PutItem)
      (out : ChangeOutput S V),
      f.calculate id st seq [] new now = .ok (tx, out) →
        out.pastOutboundEvents = [] := by
    intro f id st seq new now tx out h
    obtain ⟨pr, hpr, hout, -⟩ := calculate_ok_spec f id st seq [] new now tx out h
    rw [hout]
    show pr.pastOutboundEvents = []
    rw [hpr]
    simpa using process_nilPast_pastOutboundEvents f.processor st
      (new.map fun e => Event.mk e.type e.event)
  exact ⟨fun p state new => process_nilPast_pastOutboundEvents p state new,
    fun f id st seq new now tx out h => key f id st seq new now tx out h,
    fun f id stored new now tx out h => key f id _ _ new now tx out h⟩

/-- C10 witness: a concrete `append` commit with one event returns an
empty `pastOutboundEvents`. -/
theorem claim_C10_witness : wOut.pastOutboundEvents = [] :=
  (claim_C10).2.2 wFacet "id" none [wEv] wNow wTx wOut rfl

/-- C1: every commit performed by `append`, `appendTo` or `recalculate`
goes through `calculate` with the previous sequence `p` they determine,
and a successful commit of `n` new inbound events writes the i-th new
inbound record with sequence `p + 1 + i`, writes the state record (the
final put of the transaction) with sequence `p + n`, and returns
`ChangeOutput.seq = p + n`; with `n = 0` the state sequence equals `p`
and the state put is still part of the transaction. -/
theorem claim_C1 {S V : Type} (f : Facet S V) (id : String) :
    (∀ (st : Option S) (p : Int) (new : List (Event V)) (now : Date),
      f.appendTo id st p new now = f.calculate id st p [] new now)
    ∧ (∀ (stored : Option BaseRecord) (new : List (Event V)) (now : Date),
      f.append id stored new now =
        f.calculate id ((f.get stored).map fun sr => sr.item)
          (match f.get stored with
            | some sr => sr.record._seq
            | none => 0)
          [] new now)
    ∧ (∀ (rows : List BaseRecord) (new : List (Event V)) (now : Date),
      f.recalculate id rows new now =
        f.calculate id none
          (match (f.records rows).state with
            | some s => s._seq
            | none => 0)
          ((f.records rows).inboundEvents) new now)
    ∧ (∀ (st : Option S) (p : Int) (past : List BaseRecord)
        (new : List (Event V)) (now : Date) (tx : List PutItem)
        (out : ChangeOutput S V),
      f.calculate id st p past new now = .ok (tx, out) →
        out.seq = p + new.length
        ∧ (∀ i, i < new.length →
            ∃ r, (tx.map PutItem.item)[i]? = some r ∧ isInboundRecord r = true
              ∧ r._seq = p + 1 + i)
        ∧ (∃ r, (tx.map PutItem.item).getLast? = some r ∧ isStateRecord r = true
              ∧ r._seq = p + new.length)) :=
  ⟨fun _ _ _ _ => rfl, fun _ _ _ => rfl, fun _ _ _ => rfl,
    fun st p past new now tx out h =>
      calculate_commit_facts f id st p past new now tx out h⟩

/-- C1 witness: a concrete commit of one event over previous sequence 0
returns sequence `0 + 1`. -/
theorem claim_C1_witness : wOut.seq = 0 + (([wEv] : List (Event Int)).length : Int) :=
  ((claim_C1 wFacet "id").2.2.2 none 0 [] [wEv] wNow wTx wOut rfl).1

/-- C6: `append` on an id with no existing state record proceeds with a
null prior state and `previousSeq = 0`, so a first successful commit of
`n` new events returns sequence `n` and writes the state record with
sequence `n`. -/
theorem claim_C6 {S V : Type} (f : Facet S V) (id : String)
    (new : List (Event V)) (now : Date) :
    f.append id none new now = f.calculate id none 0 [] new now
    ∧ (∀ (tx : List PutItem) (out : ChangeOutput S V),
      f.append id none new now = .ok (tx, out) →
        out.seq = (new.length : Int)
        ∧ ∃ r, (tx.map PutItem.item).getLast? = some r
            ∧ isStateRecord r = true ∧ r._seq = (new.length : Int)) := by
  refine ⟨rfl, fun tx out h => ?_⟩
  have hfacts := calculate_commit_facts f id none 0 [] new now tx out h
  refine ⟨by simpa using hfacts.1, ?_⟩
  obtain ⟨r, h1, h2, h3⟩ := hfacts.2.2
  exact ⟨r, h1, h2, by simpa using h3⟩

/-- C6 witness: the first commit of a single event yields sequence 1. -/
theorem claim_C6_witness : wOut.seq = ((([wEv] : List (Event Int)).length : Int)) :=
  ((claim_C6 wFacet "id" [wEv] wNow).2 wTx wOut rfl).1

/-! ## Analysis of `sortRecords` and the record classification -/

theorem mem_insertBySeq {x r : BaseRecord} :
    ∀ {l : List BaseRecord}, x ∈ insertBySeq r l ↔ x = r ∨ x ∈ l := by
  intro l
  induction l with
  | nil => simp [insertBySeq]
  | cons y ys ih =>
    rw [insertBySeq]
    split_ifs with hlt
    · simp [List.mem_cons]
    · simp only [List.mem_cons, ih]
      tauto

theorem pairwise_insertBySeq {r : BaseRecord} :
    ∀ {l : List BaseRecord}, l.Pairwise (fun a b => a._seq ≤ b._seq) →
    (insertBySeq r l).Pairwise (fun a b => a._seq ≤ b._seq) := by
  intro l
  induction l with
  | nil =>
    intro _
    simp [insertBySeq]
  | cons y ys ih =>
    intro hp
    rw [List.pairwise_cons] at hp
    obtain ⟨hy, hys⟩ := hp
    rw [insertBySeq]
    split_ifs with hlt
    · rw [List.pairwise_cons]
      refine ⟨fun b hb => ?_, by rw [List.pairwise_cons]; exact ⟨hy, hys⟩⟩
      rcases List.mem_cons.mp hb with rfl | hb
      · omega
      · have := hy b hb
        omega
    · rw [List.pairwise_cons]
      refine ⟨fun b hb => ?_, ih hys⟩
      rcases mem_insertBySeq.mp hb with rfl | hb
      · omega
      · exact hy b hb

theorem filter_insertBySeq (q : Int) (r : BaseRecord) :
    ∀ {l : List BaseRecord}, l.Pairwise (fun a b => a._seq ≤ b._seq) →
    (insertBySeq r l).filter (fun x => x._seq == q)
      = if r._seq == q
        then l.filter (fun x => x._seq == q) ++ [r]
        else l.filter (fun x => x._seq == q) := by
  intro l
  induction l with
  | nil =>
    intro _
    rw [insertBySeq]
    by_cases hq : (r._seq == q) = true <;> simp [List.filter_cons, hq]
  | cons y ys ih =>
    intro hp
    rw [List.pairwise_cons] at hp
    obtain ⟨hy, hys⟩ := hp
    by_cases hlt : r._seq < y._seq
    · rw [insertBySeq, if_pos hlt]
      by_cases hrq : (r._seq == q) = true
      · have hrq2 : r._seq = q := by simpa using hrq
        have hyq : ¬ (y._seq == q) = true := by
          simp only [beq_iff_eq]
          omega
        have hfys : ys.filter (fun x => x._seq == q) = [] := by
          rw [List.filter_eq_nil_iff]
          intro a ha
          have := hy a ha
          simp only [beq_iff_eq]
          omega
        simp [List.filter_cons, hrq, hyq, hfys]
      · simp [List.filter_cons, hrq]
    · rw [insertBySeq, if_neg hlt]
      by_cases hyq : (y._seq == q) = true <;>
        by_cases hrq : (r._seq == q) = true <;>
        simp [List.filter_cons, ih hys, hyq, hrq]

theorem pairwise_foldl_insertBySeq :
    ∀ (l : List BaseRecord) (acc : List BaseRecord),
    acc.Pairwise (fun a b => a._seq ≤ b._seq) →
    (l.foldl (fun a r => insertBySeq r a) acc).Pairwise (fun a b => a._seq ≤ b._seq) := by
  intro l
  induction l with
  | nil => exact fun acc h => h
  | cons r rest ih =>
    intro acc hacc
    rw [List.foldl_cons]
    exact ih (insertBySeq r acc) (pairwise_insertBySeq hacc)

theorem filter_foldl_insertBySeq (q : Int) :
    ∀ (l : List BaseRecord) (acc : List BaseRecord),
    acc.Pairwise (fun a b => a._seq ≤ b._seq) →
    (l.foldl (fun a r => insertBySeq r a) acc).filter (fun x => x._seq == q)
      = acc.filter (fun x => x._seq == q) ++ l.filter (fun x => x._seq == q) := by
  intro l
  induction l with
  | nil =>
    intro acc _
    simp
  | cons r rest ih =>
    intro acc hacc
    rw [List.foldl_cons, ih (insertBySeq r acc) (pairwise_insertBySeq hacc),
      filter_insertBySeq q r hacc, List.filter_cons]
    by_cases hrq : (r._seq == q) = true <;> simp [hrq]

theorem mem_foldl_insertBySeq {x : BaseRecord} :
    ∀ (l : List BaseRecord) (acc : List BaseRecord),
    x ∈ l.foldl (fun a r => insertBySeq r a) acc ↔ x ∈ acc ∨ x ∈ l := by
  intro l
  induction l with
  | nil => simp
  | cons r rest ih =>
    intro acc
    rw [List.foldl_cons, ih, mem_insertBySeq]
    simp only [List.mem_cons]
    tauto

theorem sortRecords_pairwise (l : List BaseRecord) :
    (sortRecords l).Pairwise (fun a b => a._seq ≤ b._seq) :=
  pairwise_foldl_insertBySeq l [] (by simp)

theorem sortRecords_filter (l : List BaseRecord) (q : Int) :
    (sortRecords l).filter (fun x => x._seq == q) = l.filter (fun x => x._seq == q) := by
  have := filter_foldl_insertBySeq q l [] (by simp)
  simpa [sortRecords] using this

theorem mem_sortRecords {x : BaseRecord} {l : List BaseRecord} :
    x ∈ sortRecords l ↔ x ∈ l := by
  have := mem_foldl_insertBySeq (x := x) l []
  simpa [sortRecords] using this

theorem records_foldl_inbound :
    ∀ (rows : List BaseRecord) (acc : RecordsOutput),
    (rows.foldl Facet.recordsStep acc).inboundEvents
      = acc.inboundEvents ++ rows.filter (fun r => isInboundRecord r) := by
  intro rows
  induction rows with
  | nil =>
    intro acc
    simp
  | cons r rest ih =>
    intro acc
    rw [List.foldl_cons, ih, List.filter_cons]
    by_cases h : isInboundRecord r = true
    · have hstep : (Facet.recordsStep acc r).inboundEvents
          = acc.inboundEvents ++ [r] := by
        simp [Facet.recordsStep, h]
      rw [hstep]
      simp [h]
    · have hstep : (Facet.recordsStep acc r).inboundEvents = acc.inboundEvents := by
        rw [Facet.recordsStep]
        split_ifs <;> simp_all
      rw [hstep]
      simp [h]

theorem records_inbound {S V : Type} (f : Facet S V) (rows : List BaseRecord) :
    (f.records rows).inboundEvents
      = sortRecords (rows.filter (fun r => isInboundRecord r)) := by
  show sortRecords ((rows.foldl Facet.recordsStep
    { state := none, inboundEvents := [], outboundEvents := [] }).inboundEvents) = _
  rw [records_foldl_inbound]
  simp

/-- C5: `Facet.records` (the read path of `recalculate`) returns the
inbound rows sorted ascending by `_seq` whatever order the store
returned them in, stably (for every sequence value the records with that
`_seq` keep their input order); only INBOUND-prefixed rows enter the
list handed to the reduction, so a row whose sort key begins with none
of STATE, INBOUND, OUTBOUND is ignored by the reduction; and
`recalculate` reduces over exactly this sorted list. -/
theorem claim_C5 {S V : Type} (f : Facet S V) (rows : List BaseRecord) :
    (f.records rows).inboundEvents.Pairwise (fun a b => a._seq ≤ b._seq)
    ∧ (∀ q : Int, (f.records rows).inboundEvents.filter (fun r => r._seq == q)
        = (rows.filter (fun r => isInboundRecord r)).filter (fun r => r._seq == q))
    ∧ (∀ r ∈ (f.records rows).inboundEvents, isInboundRecord r = true)
    ∧ (∀ r : BaseRecord, ¬ strStartsWith r._rng "STATE" = true →
        ¬ strStartsWith r._rng "INBOUND" = true →
        ¬ strStartsWith r._rng "OUTBOUND" = true →
        r ∉ (f.records rows).inboundEvents)
    ∧ (∀ (id : String) (new : List (Event V)) (now : Date),
        f.recalculate id rows new now = f.calculate id none
          (match (f.records rows).state with
            | some s => s._seq
            | none => 0)
          ((f.records rows).inboundEvents) new now) := by
  have hin := records_inbound f rows
  have hmem : ∀ r ∈ (f.records rows).inboundEvents, isInboundRecord r = true := by
    intro r hr
    rw [hin] at hr
    exact (List.mem_filter.mp (mem_sortRecords.mp hr)).2
  refine ⟨?_, fun q => ?_, hmem, fun r _ h2 _ hmemr => ?_, fun _ _ _ => rfl⟩
  · rw [hin]
    exact sortRecords_pairwise _
  · rw [hin, sortRecords_filter]
  · exact h2 (hmem r hmemr)

/-- C5 witness: for the concrete rows `[seq 2, stray, seq 1]` the
classified inbound rows are INBOUND records and the stray row is
excluded. -/
theorem claim_C5_witness :
    isInboundRecord wRec1 = true
    ∧ wStray ∉ (wFacet.records wRows).inboundEvents := by
  have h := claim_C5 wFacet wRows
  exact ⟨h.2.2.1 wRec1 (by decide),
    h.2.2.2.1 wStray (by decide) (by decide) (by decide)⟩

end HDE
